import Mathlib

/-!
# Verification of the tool-output diagnostic pipeline of `src/util.ts`

Shallow embedding of the diagnostic pipeline of the Go editor integration:
the `go version` output model (`GoVersion`), the line-oriented tool-output
parser of `runTool`, the diagnostic merge of `handleDiagnosticErrors` /
`deDupeDiagnostics`, the `LineBuffer` streaming line splitter, and the
memoized byte-offset to character-offset converter.

Strings are embedded as `List Char`; machine numbers of the source are
embedded as `Nat` (all quantities involved are nonnegative and small).
-/

namespace VscodeGo

/-- JavaScript `\w` character class: `[A-Za-z0-9_]`. -/
def isWordChar (c : Char) : Bool :=
  c.isAlphanum || c = '_'

/-- JavaScript `[a-zA-Z0-9]` character class. -/
def isAlnumChar (c : Char) : Bool :=
  c.isAlphanum

/-- JavaScript `String.prototype.split('\n')`: the segments of a string
between newline characters; always at least one (possibly empty) segment. -/
def splitNl : List Char → List (List Char)
  | [] => [[]]
  | c :: cs =>
    if c = '\n' then [] :: splitNl cs
    else
      match splitNl cs with
      | [] => [[c]]
      | l :: ls => (c :: l) :: ls

/-! ## GoVersion (source lines 82-137)

The constructor runs two JavaScript regexes against the `go version` output:
`/go version go(\d.\d+).*/` (release form) and
`/go version devel \+(.[a-zA-Z0-9]+).*/` (development form), both unanchored
(`RegExp.exec` scans for the leftmost match).  The `semver` library is an
external dependency: its `coerce` operation is a parameter of the embedding,
and its version values are embedded as `major.minor.patch` triples compared
lexicographically (the only shape the source ever builds via `coerce`). -/

/-- Model of a `semver.SemVer` value as built by `semver.coerce`. -/
structure SemVer where
  major : Nat
  minor : Nat
  patch : Nat
deriving DecidableEq

/-- Model of `semver.lt`: lexicographic order on (major, minor, patch). -/
def semverLt (a b : SemVer) : Bool :=
  (a.major < b.major) ||
    (a.major = b.major && (a.minor < b.minor ||
      (a.minor = b.minor && a.patch < b.patch)))

/-- Model of `semver.gt`. -/
def semverGt (a b : SemVer) : Bool :=
  semverLt b a

/-- Model of `SemVer.prototype.format`: `major.minor.patch`. -/
def semverFormat (v : SemVer) : List Char :=
  (Nat.repr v.major).data ++ '.' :: (Nat.repr v.minor).data ++ '.' :: (Nat.repr v.patch).data

/-- Does `s` start with the literal characters `lit`? (regex literal run). -/
def litLeads : List Char → List Char → Bool
  | [], _ => true
  | _ :: _, [] => false
  | l :: ls, c :: cs => l = c && litLeads ls cs

/-- One attempt of `/go version go(\d.\d+).*/` at the current position:
the literal `go version go`, then `\d`, then `.` (any non-newline
character), then `\d+` (at least one digit).  When it succeeds the whole
match (`match[0]`) extends to the end of the line, since the trailing
greedy `.*` absorbs every remaining non-newline character. -/
def matchReleaseAt (s : List Char) : Bool :=
  litLeads "go version go".data s &&
    (match s.drop 13 with
     | d1 :: dot :: d2 :: _ => d1.isDigit && dot ≠ '\n' && d2.isDigit
     | _ => false)

/-- Model of `RegExp.exec` of `/go version go(\d.\d+).*/`: leftmost position where
the pattern matches; returns `match[0]` (used by the source via
`semver.coerce(matchesRelease[0])`). -/
def matchRelease : List Char → Option (List Char)
  | [] => none
  | c :: cs =>
    if matchReleaseAt (c :: cs) then some ((c :: cs).takeWhile (fun x => x ≠ '\n'))
    else matchRelease cs

/-- One attempt of `/go version devel \+(.[a-zA-Z0-9]+).*/` at the current
position: the literal `go version devel +`, then `.` (any non-newline
character), then `[a-zA-Z0-9]+` (at least one alphanumeric). -/
def matchDevelAt (s : List Char) : Bool :=
  litLeads "go version devel +".data s &&
    (match s.drop 18 with
     | c :: d :: _ => c ≠ '\n' && isAlnumChar d
     | _ => false)

/-- Model of `RegExp.exec` of `/go version devel \+(.[a-zA-Z0-9]+).*/` at the
leftmost matching position; returns `(match[0], match[1])`: the whole match
(up to the end of the line, by the trailing greedy `.*`) and the capture
group (the character after `devel +` followed by the maximal alphanumeric
run). -/
def matchDevel : List Char → Option (List Char × List Char)
  | [] => none
  | c :: cs =>
    if matchDevelAt (c :: cs) then
      some ((c :: cs).takeWhile (fun x => x ≠ '\n'),
        match (c :: cs).drop 18 with
        | [] => []
        | g :: gs => g :: gs.takeWhile isAlnumChar)
    else matchDevel cs

/-- The fields of a `GoVersion` instance (`binaryPath` carries no behavior
and is omitted).  JavaScript `undefined` fields are embedded as `none` /
`false`. -/
structure GoVersion where
  sv : Option SemVer
  isDevel : Bool
  commit : Option (List Char)
deriving DecidableEq

/-- The `GoVersion` constructor (source lines 87-99).  `coerce` is the external
`semver.coerce`.  Note the source stores `matchesDevel[0]` — the whole
match — into `this.commit`. -/
def GoVersion.mk' (coerce : List Char → Option SemVer) (version : List Char) : GoVersion :=
  match matchRelease version with
  | some whole =>
    { sv := coerce whole, isDevel := false, commit := none }
  | none =>
    match matchDevel version with
    | some (whole, _group) => { sv := none, isDevel := true, commit := some whole }
    | none => { sv := none, isDevel := false, commit := none }

/-- Method `GoVersion.isValid` (source lines 101-103): `!!this.sv || !!this.isDevel`. -/
def GoVersion.isValid (g : GoVersion) : Bool :=
  g.sv.isSome || g.isDevel

/-- Method `GoVersion.format` (source lines 105-110).  When `commit` is
`undefined`, the template literal renders the string `undefined`. -/
def GoVersion.format (g : GoVersion) : List Char :=
  match g.sv with
  | some sv => semverFormat sv
  | none => "devel +".data ++ (g.commit.getD "undefined".data)

/-- Method `GoVersion.lt` (source lines 112-123). -/
def GoVersion.lt (coerce : List Char → Option SemVer) (g : GoVersion) (version : List Char) :
    Bool :=
  if g.isDevel || g.sv.isNone then false
  else
    match coerce version with
    | none => false
    | some v =>
      match g.sv with
      | some sv => semverLt sv v
      | none => false

/-- Method `GoVersion.gt` (source lines 125-136). -/
def GoVersion.gt (coerce : List Char → Option SemVer) (g : GoVersion) (version : List Char) :
    Bool :=
  if g.isDevel || g.sv.isNone then true
  else
    match coerce version with
    | none => false
    | some v =>
      match g.sv with
      | some sv => semverGt sv v
      | none => false

/-! ## The diagnostic line grammar of `runTool` (source line 711)

The source matches every output line against the anchored JavaScript regex

  `/^([^:]*: )?((.:)?[^:]*):(\d+)(:(\d+)?)?:(?:\w+:)? (.*)$/`

and destructures `[, , file, , lineStr, , colStr, msg]`.  The matcher below
realizes the exact backtracking semantics of that pattern.  Each greedy
piece (`[^:]*`, `\d+`, `\w+`) is followed by a character excluded from its
class, so only its maximal run can succeed; the only genuine backtracking
points are the three optional groups (label, drive letter, column), each
tried present-first as `RegExp` does. -/

/-- The capture groups of the diagnostic line regex that the source uses. -/
structure DiagMatch where
  file : List Char
  lineStr : List Char
  colStr : Option (List Char)
  msg : List Char
deriving DecidableEq

/-- Tail `(?:\w+:)? (.*)$` of the diagnostic regex: an optional `tag:`
(whole maximal `\w+` run, tried present-first), one space, message to the
end of the line. -/
def matchMsgTail (u : List Char) : Option (List Char) :=
  let w := u.takeWhile isWordChar
  let tagged : Option (List Char) :=
    if w.isEmpty then none
    else
      match u.drop w.length with
      | ':' :: ' ' :: m => some m
      | _ => none
  match tagged with
  | some m => some m
  | none =>
    match u with
    | ' ' :: m => some m
    | _ => none

/-- Middle `(:(\d+)?)?:` of the diagnostic regex followed by the tail,
applied after the line-number digits: an optional `:` plus optional column
digits (group 6), then a mandatory `:`.  The optional group is tried
present-first; inside it, only the full digit run (or the empty one) can be
followed by the mandatory `:`. -/
def matchColTail (t : List Char) : Option (Option (List Char) × List Char) :=
  match t with
  | ':' :: t' =>
    let e := t'.takeWhile Char.isDigit
    let present : Option (Option (List Char) × List Char) :=
      match t'.drop e.length with
      | ':' :: u => (matchMsgTail u).map (fun m => (if e.isEmpty then none else some e, m))
      | _ => none
    match present with
    | some r => some r
    | none => (matchMsgTail t').map (fun m => ((none : Option (List Char)), m))
  | _ => none

/-- Piece `[^:]*:(\d+)` of the diagnostic regex followed by the rest (the file
part without a drive letter): the maximal colon-free run, a `:`, a
nonempty digit run (group 4), then `matchColTail`. -/
def matchCoreNoDrive (s : List Char) : Option DiagMatch :=
  let f := s.takeWhile (fun c => c ≠ ':')
  match s.drop f.length with
  | ':' :: rest =>
    let d := rest.takeWhile Char.isDigit
    if d.isEmpty then none
    else
      (matchColTail (rest.drop d.length)).map (fun r =>
        { file := f, lineStr := d, colStr := r.1, msg := r.2 })
  | _ => none

/-- Piece `((.:)?[^:]*):(\d+)...`: the file group with its optional drive letter
`(.:)?` (any non-newline character followed by `:`), tried present-first. -/
def matchCore (s : List Char) : Option DiagMatch :=
  match s with
  | c :: ':' :: rest =>
    if c ≠ '\n' then
      match matchCoreNoDrive rest with
      | some m => some { m with file := c :: ':' :: m.file }
      | none => matchCoreNoDrive s
    else matchCoreNoDrive s
  | _ => matchCoreNoDrive s

/-- The whole diagnostic line regex: the optional label `([^:]*: )?` is
tried present-first.  The label's colon-free run can only be the maximal
one (a shorter run would put a non-colon character where the pattern
demands `:`). -/
def matchDiagLine (s : List Char) : Option DiagMatch :=
  let r := s.takeWhile (fun c => c ≠ ':')
  let withLabel : Option DiagMatch :=
    match s.drop r.length with
    | ':' :: ' ' :: rest => matchCore rest
    | _ => none
  match withLabel with
  | some m => some m
  | none => matchCore s

/-! ## The `runTool` output parser (source lines 656-756)

Only the pure part of `runTool` is embedded: the callback that turns the
captured `stdout`/`stderr` text into `ICheckResult[]`.  Process spawning,
cancellation and output-channel logging are I/O.  `path` operations are
embedded in their POSIX form (`path.sep = '/'`; `path.resolve` on an
absolute, normalized `cwd` and a normalized relative path is plain
joining).  JavaScript `+lineStr` on the matched digit group is a number;
`+colStr` where `colStr` is `undefined` is `NaN`, embedded as `none`. -/

/-- Structure `ICheckResult` (source lines 639-645). -/
structure ICheckResult where
  file : List Char
  line : Nat
  col : Option Nat
  msg : List Char
  severity : List Char
deriving DecidableEq

/-- Model of POSIX `path.isAbsolute`. -/
def pathIsAbsolute (f : List Char) : Bool :=
  f.head? == some '/'

/-- Model of `path.resolve(cwd, f)` for an absolute normalized `cwd` and a
normalized `f` (the only inputs the pipeline produces). -/
def pathResolve (cwd f : List Char) : List Char :=
  if pathIsAbsolute f then f else cwd ++ '/' :: f

/-- Does `pat` occur as a contiguous substring (JS `indexOf(pat) > -1`)? -/
def hasSubstr (pat : List Char) : List Char → Bool
  | [] => litLeads pat []
  | c :: cs => litLeads pat (c :: cs) || hasSubstr pat cs

/-- The vendor-path filter of source lines 726-731:
`!path.isAbsolute(file) && (file.startsWith('vendor/') || file.indexOf('/vendor/') > -1)`. -/
def isVendoredRelative (f : List Char) : Bool :=
  !pathIsAbsolute f && (litLeads "vendor/".data f || hasSubstr "/vendor/".data f)

/-- JavaScript `+digits` for a nonempty digit string. -/
def digitsToNat (d : List Char) : Nat :=
  d.foldl (fun n c => 10 * n + (c.toNat - 48)) 0

/-- The mutable locals of the parsing loop of `runTool`. -/
structure ParseState where
  ret : List ICheckResult
  unexpectedOutput : Bool
  atLeastSingleMatch : Bool
deriving DecidableEq

/-- Statement `ret[ret.length - 1].msg += '\n' + l` (source line 708). -/
def appendToLastMsg (rs : List ICheckResult) (l : List Char) : List ICheckResult :=
  match rs with
  | [] => []
  | [r] => [{ r with msg := r.msg ++ '\n' :: l }]
  | r :: rest => r :: appendToLastMsg rest l

/-- One iteration of the `for (const l of lines)` loop of `runTool`
(source lines 706-736). -/
def processLine (useStdErr printUnexpectedOutput stderrNonempty : Bool)
    (cwd severity : List Char) (st : ParseState) (l : List Char) : ParseState :=
  if l.head? == some '\t' && !st.ret.isEmpty then
    { st with ret := appendToLastMsg st.ret l }
  else
    match matchDiagLine l with
    | none =>
      if printUnexpectedOutput && useStdErr && stderrNonempty then
        { st with unexpectedOutput := true }
      else st
    | some m =>
      let st' : ParseState := { st with atLeastSingleMatch := true }
      if isVendoredRelative m.file then st'
      else
        { st' with ret := st'.ret ++
            [{ file := pathResolve cwd m.file, line := digitsToNat m.lineStr,
               col := m.colStr.map digitsToNat, msg := m.msg, severity := severity }] }

/-- The captured outcome of the external process handed to the `execFile`
callback: whether `err` is truthy, whether `err.code === 'ENOENT'`, and the
two output streams. -/
structure ToolOutput where
  errFlag : Bool
  errEnoent : Bool
  stdout : List Char
  stderr : List Char

/-- The `execFile` callback of `runTool` (source lines 687-750):
ENOENT and stderr-without-`useStdErr` short circuits, the line loop, and
the synthetic unparsable-output diagnostic. -/
def runTool (useStdErr printUnexpectedOutput : Bool) (activeEditorFile : Option (List Char))
    (cwd severity : List Char) (o : ToolOutput) : List ICheckResult :=
  if o.errFlag && o.errEnoent then []
  else if o.errFlag && !o.stderr.isEmpty && !useStdErr then []
  else
    let lines := splitNl (if useStdErr then o.stderr else o.stdout)
    let st := lines.foldl
      (processLine useStdErr printUnexpectedOutput (!o.stderr.isEmpty) cwd severity)
      ⟨[], false, false⟩
    if !st.atLeastSingleMatch && st.unexpectedOutput then
      match activeEditorFile with
      | some f =>
        if o.errFlag then
          st.ret ++ [{ file := f, line := 1, col := some 1, msg := o.stderr,
                       severity := "error".data }]
        else st.ret
      | none => st.ret
    else st.ret

/-! ## Diagnostic merging (source lines 758-830)

`handleDiagnosticErrors` converts `ICheckResult[]` into `vscode.Diagnostic`
values grouped per file (lines 765-796) and then publishes the per-file map
into the three process-wide `DiagnosticCollection`s with the build-wins
dedup policy (lines 798-821).  The conversion stage only shapes ranges and
messages; the merge is keyed on the file and the range's start line, so the
embedding takes the already-grouped map and models a diagnostic by its
start line plus its remaining payload.  A `DiagnosticCollection` is a
mapping from file to an optional diagnostic list (`has`/`get`/`set`/`clear`). -/

/-- A published `vscode.Diagnostic`, reduced to the fields the merge logic
reads (`range.start.line`) plus an opaque payload standing for the rest. -/
structure VDiag where
  line : Nat
  payload : List Char
deriving DecidableEq

/-- A `vscode.DiagnosticCollection`: file (as canonical URI string) to
stored diagnostics; `none` models `has(uri) === false`. -/
def DiagCollection : Type := List Char → Option (List VDiag)

/-- The three diagnostic source categories of the pipeline. -/
inductive DiagCategory where
  | build
  | lint
  | vet
deriving DecidableEq

/-- The three process-wide collections (`buildDiagnosticCollection`,
`lintDiagnosticCollection`, `vetDiagnosticCollection`). -/
structure DiagStores where
  build : DiagCollection
  lint : DiagCollection
  vet : DiagCollection

/-- Read one collection. -/
def DiagStores.get (st : DiagStores) : DiagCategory → DiagCollection
  | .build => st.build
  | .lint => st.lint
  | .vet => st.vet

/-- Operation `collection.set(fileUri, diags)` on the collection of one category. -/
def DiagStores.set (st : DiagStores) (cat : DiagCategory) (file : List Char)
    (ds : List VDiag) : DiagStores :=
  match cat with
  | .build => { st with build := fun g => if g = file then some ds else st.build g }
  | .lint => { st with lint := fun g => if g = file then some ds else st.lint g }
  | .vet => { st with vet := fun g => if g = file then some ds else st.vet g }

/-- Operation `collection.clear()` on the collection of one category (source line 763). -/
def DiagStores.clear (st : DiagStores) : DiagCategory → DiagStores
  | .build => { st with build := fun _ => none }
  | .lint => { st with lint := fun _ => none }
  | .vet => { st with vet := fun _ => none }

/-- Function `deDupeDiagnostics` (source lines 824-830): drop from
`otherDiagnostics` every diagnostic whose start line occurs among the start
lines of `buildDiagnostics` (`indexOf(...) === -1` is non-membership). -/
def deDupeDiagnostics (buildDiagnostics otherDiagnostics : List VDiag) : List VDiag :=
  let buildDiagnosticsLines := buildDiagnostics.map (fun x => x.line)
  otherDiagnostics.filter (fun x => !buildDiagnosticsLines.contains x.line)

/-- The body of `diagnosticMap.forEach` in `handleDiagnosticErrors`
(source lines 798-821) for one file of the new run, publishing into the
category `cat` of the current run. -/
def publishFileDiagnostics (cat : DiagCategory) (file : List Char)
    (newDiagnostics : List VDiag) (st : DiagStores) : DiagStores :=
  match cat with
  | .build =>
    let st1 :=
      match st.lint file with
      | some ds => st.set .lint file (deDupeDiagnostics newDiagnostics ds)
      | none => st
    let st2 :=
      match st1.vet file with
      | some ds => st1.set .vet file (deDupeDiagnostics newDiagnostics ds)
      | none => st1
    st2.set .build file newDiagnostics
  | .lint =>
    let nd :=
      match st.build file with
      | some ds => deDupeDiagnostics ds newDiagnostics
      | none => newDiagnostics
    st.set .lint file nd
  | .vet =>
    let nd :=
      match st.build file with
      | some ds => deDupeDiagnostics ds newDiagnostics
      | none => newDiagnostics
    st.set .vet file nd

/-- Function `handleDiagnosticErrors` from the grouped per-file map on (source
lines 758-821): clear the collection of the incoming category, then
publish each file's new diagnostics with the build-wins dedup policy. -/
def handleDiagnosticErrors (cat : DiagCategory) (diagnosticMap : List (List Char × List VDiag))
    (st : DiagStores) : DiagStores :=
  diagnosticMap.foldl (fun acc e => publishFileDiagnostics cat e.1 e.2 acc) (st.clear cat)

/-! ## LineBuffer (source lines 505-542)

`append(chunk)` concatenates the chunk onto the internal buffer and then
repeatedly fires the text before the first `\n` as a line, keeping the text
after the last `\n` buffered; `done()` fires the leftover buffer, or `null`
when it is empty.  Listener dispatch is modelled by returning the fired
lines / final value. -/

/-- The line-extraction loop of `LineBuffer.append` (source lines 512-520):
all complete (newline-terminated) lines of `s`, without their terminators,
paired with the text after the last newline.  (The source scans for the
first `\n` repeatedly; this recursion computes the same split character by
character.) -/
def extractLines : List Char → List (List Char) × List Char
  | [] => ([], [])
  | c :: cs =>
    let p := extractLines cs
    if c = '\n' then ([] :: p.1, p.2)
    else
      match p.1 with
      | [] => ([], c :: p.2)
      | l :: ls => ((c :: l) :: ls, p.2)

/-- Method `LineBuffer.append` (source lines 510-521): the fired lines and the new
buffer after appending `chunk` to the buffer `buf`. -/
def lineBufferAppend (buf chunk : List Char) : List (List Char) × List Char :=
  extractLines (buf ++ chunk)

/-- Method `LineBuffer.done` (source lines 523-525): the value handed to the done
listeners (`null` is `none`). -/
def lineBufferDone (buf : List Char) : Option (List Char) :=
  if buf.isEmpty then none else some buf

/-- A whole `LineBuffer` session: every `append` in order, then `done`;
returns all fired lines in order and the done value. -/
def lineBufferRun (chunks : List (List Char)) : List (List Char) × Option (List Char) :=
  let p := chunks.foldl
    (fun acc chunk =>
      let r := lineBufferAppend acc.2 chunk
      (acc.1 ++ r.1, r.2))
    (([] : List (List Char)), ([] : List Char))
  (p.1, lineBufferDone p.2)

/-! ## Memoized byte-offset converter (source lines 880-901)

`makeMemoizedByteOffsetConverter` holds a `NearestNeighborDict` (an AVL
tree from `./avlTree`, a module outside the provided sources) of
`(byteOffset, charOffset)` samples seeded with `(0, 0)` and answers a query
by decoding only the span between the query and the nearest sample.

The text buffer is embedded as the list of characters `t` it encodes, so
byte offsets are measured by `Char.utf8Size` and JavaScript string lengths
(UTF-16 code units) by `utf16Size`. -/

/-- The JavaScript `String.prototype.length` contribution of one character:
UTF-16 code units (2 for supplementary-plane characters). -/
def utf16Size (c : Char) : Nat :=
  if c.toNat < 65536 then 1 else 2

/-- Byte offset of the `i`-th character boundary of `t` in UTF-8. -/
def utf8Pos : List Char → Nat → Nat
  | _, 0 => 0
  | [], _ + 1 => 0
  | c :: cs, i + 1 => c.utf8Size + utf8Pos cs i

/-- UTF-16 length of the first `i` characters of `t` (the character offset
the editor uses at the `i`-th boundary). -/
def utf16Pos : List Char → Nat → Nat
  | _, 0 => 0
  | [], _ + 1 => 0
  | c :: cs, i + 1 => utf16Size c + utf16Pos cs i

/-- The largest character index whose byte offset is at most `b` — the
boundary-inversion of `utf8Pos`. -/
def byteToIdx : List Char → Nat → Nat
  | [], _ => 0
  | c :: cs, b => if c.utf8Size ≤ b then byteToIdx cs (b - c.utf8Size) + 1 else 0

/-- Model of `buffer.toString('utf8', lo, hi).length` for byte offsets that
sit on character boundaries of the valid UTF-8 buffer (the only inputs the
converter's contract admits): the UTF-16 length of the characters between
the two boundaries. -/
def decodeLen (t : List Char) (lo hi : Nat) : Nat :=
  utf16Pos t (byteToIdx t hi) - utf16Pos t (byteToIdx t lo)

/-- Distance `|a - b|` on `Nat` — `NearestNeighborDict.NUMERIC_DISTANCE_FUNCTION`. -/
def natDist (a b : Nat) : Nat :=
  max a b - min a b

/-- Modelled from the spec: `NearestNeighborDict.getNearest` of the AVL
tree module `./avlTree`, which is not among the provided sources — §4.4:
"find the nearest existing sample (by absolute byte distance, either
direction)".  The tie direction is unspecified there; this model keeps the
earlier sample, and no theorem below depends on the choice. -/
def getNearest (samples : List (Nat × Nat)) (q : Nat) : Nat × Nat :=
  match samples with
  | [] => (0, 0)
  | s :: rest =>
    rest.foldl (fun best x => if natDist x.1 q < natDist best.1 q then x else best) s

/-- The closure returned by `makeMemoizedByteOffsetConverter` (source lines
883-900), acting on an explicit sample store: nearest sample, early return
on exact hit, forward or backward decode of the delta span, insert, answer.
The backward branch adds a negative `charDelta`; under the sample-
correctness invariant the subtraction never underflows, so it is embedded
as `Nat` subtraction. -/
def memoQuery (t : List Char) (memo : List (Nat × Nat)) (byteOffset : Nat) :
    Nat × List (Nat × Nat) :=
  let nearest := getNearest memo byteOffset
  if byteOffset = nearest.1 then (nearest.2, memo)
  else if nearest.1 < byteOffset then
    let charDelta := decodeLen t nearest.1 byteOffset
    (nearest.2 + charDelta, (byteOffset, nearest.2 + charDelta) :: memo)
  else
    let charDelta := decodeLen t byteOffset nearest.1
    (nearest.2 - charDelta, (byteOffset, nearest.2 - charDelta) :: memo)

/-- A sequence of queries against one converter: the answers in order and
the final sample store. -/
def memoRun (t : List Char) : List Nat → List (Nat × Nat) → List Nat × List (Nat × Nat)
  | [], memo => ([], memo)
  | q :: qs, memo =>
    let r := memoQuery t memo q
    let rest := memoRun t qs r.2
    (r.1 :: rest.1, rest.2)

/-- The answers of a fresh converter (seeded with the `(0, 0)` sample,
source line 881) to a query sequence. -/
def converterOutputs (t : List Char) (qs : List Nat) : List Nat :=
  (memoRun t qs [(0, 0)]).1

/-- Sample-store correctness: every stored sample pairs the byte offset of
some character boundary of `t` with the character (UTF-16) offset of that
same boundary. -/
def goodMemo (t : List Char) (memo : List (Nat × Nat)) : Prop :=
  ∀ p ∈ memo, ∃ i, i ≤ t.length ∧ p.1 = utf8Pos t i ∧ p.2 = utf16Pos t i

/-! # Theorems -/

theorem splitNl_ne_nil (s : List Char) : splitNl s ≠ [] := by
  induction s with
  | nil => simp [splitNl]
  | cons c cs ih =>
    simp only [splitNl]
    split
    · simp
    · cases h : splitNl cs <;> simp

/-! ## Claim C3: comparisons on an invalid GoVersion -/

/-- Claim C3 counterexample: the claim predicts that an invalid instance's
`gt` returns `false` when the argument fails to `semver.coerce`; the source
returns `true` before ever consulting `coerce` (the `!this.sv` branch of
`gt` fires first). -/
theorem goVersion_gt_invalid_cex :
    ¬ (∀ (g : GoVersion) (coerce : List Char → Option SemVer) (v : List Char),
        g.isValid = false → coerce v = none → GoVersion.gt coerce g v = false) := by
  intro h
  have hc := h ⟨none, false, none⟩ (fun _ => none) "not a version".data rfl rfl
  exact absurd hc (by decide)

/-- Claim C3 (amended): for every invalid `GoVersion` instance, `lt`
returns `false` for every argument and `gt` returns `true` for every
argument, whether or not the argument parses as a version. -/
theorem goVersion_invalid_lt_gt (g : GoVersion) (coerce : List Char → Option SemVer)
    (v : List Char) (h : g.isValid = false) :
    GoVersion.lt coerce g v = false ∧ GoVersion.gt coerce g v = true := by
  cases g with
  | mk sv isDevel commit =>
    cases sv with
    | some s => simp [GoVersion.isValid] at h
    | none =>
      cases isDevel with
      | true => simp [GoVersion.isValid] at h
      | false => simp [GoVersion.lt, GoVersion.gt]

/-- Witness for `goVersion_invalid_lt_gt` at the instance parsed from
unrecognizable version output. -/
theorem goVersion_invalid_lt_gt_witness :
    GoVersion.lt (fun _ => none) (GoVersion.mk' (fun _ => none) "gibberish".data) "1.2".data
        = false ∧
    GoVersion.gt (fun _ => none) (GoVersion.mk' (fun _ => none) "gibberish".data) "1.2".data
        = true :=
  goVersion_invalid_lt_gt (GoVersion.mk' (fun _ => none) "gibberish".data)
    (fun _ => none) "1.2".data (by decide)

/-! ## Claim C7: the commit hash of a development build -/

/-- Claim C7: evaluation of the constructor at the failing input
`go version devel +abc123 linux/amd64`.  The development regex's capture
group is the fragment `abc123`, but the source stores `matchesDevel[0]` —
the whole match — as the commit, so `format()` does not return
`devel +abc123`. -/
theorem goVersion_devel_commit_evaluation :
    (matchDevel "go version devel +abc123 linux/amd64".data).map Prod.snd
        = some "abc123".data ∧
    (GoVersion.mk' (fun _ => none) "go version devel +abc123 linux/amd64".data).commit
        = some "go version devel +abc123 linux/amd64".data ∧
    GoVersion.format (GoVersion.mk' (fun _ => none) "go version devel +abc123 linux/amd64".data)
        = "devel +go version devel +abc123 linux/amd64".data ∧
    GoVersion.format (GoVersion.mk' (fun _ => none) "go version devel +abc123 linux/amd64".data)
        ≠ "devel +abc123".data := by
  refine ⟨by decide, by decide, by decide, by decide⟩

/-! ## Claim C9: parsing `main.go:10:5: undefined: foo` -/

/-- Claim C9 counterexample: the stored `file` field is
`path.resolve(cwd, 'main.go')`, not the raw matched path `main.go` — here
with working directory `/w` it is `/w/main.go`. -/
theorem runTool_single_line_cex :
    (runTool false false none "/w".data "error".data
        ⟨false, false, "main.go:10:5: undefined: foo".data, []⟩).map (fun r => r.file)
      ≠ ["main.go".data] := by decide

/-- Claim C9 (amended): parsing the single output line
`main.go:10:5: undefined: foo` yields exactly one diagnostic whose file is
`main.go` resolved against the working directory, whose line is 10, whose
column is 5, and whose message is `undefined: foo`. -/
theorem runTool_single_line_parse (cwd severity : List Char) :
    runTool false false none cwd severity
        ⟨false, false, "main.go:10:5: undefined: foo".data, []⟩ =
      [{ file := pathResolve cwd "main.go".data, line := 10, col := some 5,
         msg := "undefined: foo".data, severity := severity }] := by
  rfl

/-! ## Claim C2: tab continuation lines -/

/-- Claim C2 counterexample: the source appends `'\n' + l` where `l` still
carries its leading tab, so the two-line example's message is not
`error one\nmore detail`. -/
theorem runTool_continuation_cex :
    (runTool false false none "/w".data "error".data
        ⟨false, false, "main.go:10: error one\n\tmore detail".data, []⟩).map (fun r => r.msg)
      ≠ ["error one\nmore detail".data] := by decide

/-- Claim C2 (amended): once at least one diagnostic has been emitted, a
line beginning with a tab is not parsed as a new record but appended — tab
included — to the previous diagnostic's message with an interposed
newline; parsing `main.go:10: error one` then `\tmore detail` yields one
diagnostic whose message is `error one\n\tmore detail`. -/
theorem runTool_tab_continuation (useStdErr printUnexpectedOutput stderrNonempty : Bool)
    (cwd severity l : List Char) (st : ParseState)
    (htab : l.head? = some '\t') (hne : st.ret ≠ []) :
    processLine useStdErr printUnexpectedOutput stderrNonempty cwd severity st l =
        { st with ret := appendToLastMsg st.ret l } ∧
    runTool false false none cwd severity
        ⟨false, false, "main.go:10: error one\n\tmore detail".data, []⟩ =
      [{ file := pathResolve cwd "main.go".data, line := 10, col := none,
         msg := "error one\n\tmore detail".data, severity := severity }] := by
  constructor
  · cases hr : st.ret with
    | nil => exact absurd hr hne
    | cons a as =>
      unfold processLine
      rw [htab, hr]
      simp
  · rfl

/-- Witness for `runTool_tab_continuation`. -/
theorem runTool_tab_continuation_witness :
    processLine false false false "/w".data "error".data
        ⟨[{ file := "/w/f.go".data, line := 1, col := none, msg := "m".data,
            severity := "error".data }], false, true⟩ "\tdetail".data =
        { ret := [{ file := "/w/f.go".data, line := 1, col := none,
                    msg := "m\n\tdetail".data, severity := "error".data }],
          unexpectedOutput := false, atLeastSingleMatch := true } ∧
    runTool false false none "/w".data "error".data
        ⟨false, false, "main.go:10: error one\n\tmore detail".data, []⟩ =
      [{ file := pathResolve "/w".data "main.go".data, line := 10, col := none,
         msg := "error one\n\tmore detail".data, severity := "error".data }] := by
  have h := runTool_tab_continuation false false false "/w".data "error".data "\tdetail".data
    ⟨[{ file := "/w/f.go".data, line := 1, col := none, msg := "m".data,
        severity := "error".data }], false, true⟩ (by decide) (by decide)
  exact ⟨by rw [h.1]; decide, h.2⟩

/-! ## Claim C8: vendored relative paths are dropped -/

/-- Claim C8: a record line whose matched file path is not absolute and has
a `vendor` path segment as a leading or nested segment is discarded: the
loop step leaves the collected results unchanged (only the
`atLeastSingleMatch` flag is set); in particular
`pkg/vendor/x/y.go:3: note` produces no diagnostic at all. -/
theorem runTool_vendor_filter (useStdErr printUnexpectedOutput stderrNonempty : Bool)
    (cwd severity l : List Char) (st : ParseState) (m : DiagMatch)
    (htab : l.head? ≠ some '\t')
    (hmatch : matchDiagLine l = some m)
    (habs : pathIsAbsolute m.file = false)
    (hv : litLeads "vendor/".data m.file = true ∨ hasSubstr "/vendor/".data m.file = true) :
    processLine useStdErr printUnexpectedOutput stderrNonempty cwd severity st l =
        { st with atLeastSingleMatch := true } ∧
    runTool false false none "/w".data severity
        ⟨false, false, "pkg/vendor/x/y.go:3: note".data, []⟩ = [] := by
  constructor
  · unfold processLine
    have hb : (l.head? == some '\t') = false := beq_eq_false_iff_ne.mpr htab
    rw [hb, hmatch]
    have hvv : isVendoredRelative m.file = true := by
      unfold isVendoredRelative
      rw [habs]
      rcases hv with h1 | h1 <;> simp [h1]
    simp [hvv]
  · rfl

/-- Witness for `runTool_vendor_filter` at the line
`pkg/vendor/x/y.go:3: note`. -/
theorem runTool_vendor_filter_witness :
    processLine false false false "/w".data "warning".data ⟨[], false, false⟩
        "pkg/vendor/x/y.go:3: note".data =
      { ret := [], unexpectedOutput := false, atLeastSingleMatch := true } ∧
    runTool false false none "/w".data "warning".data
        ⟨false, false, "pkg/vendor/x/y.go:3: note".data, []⟩ = [] := by
  have h := runTool_vendor_filter false false false "/w".data "warning".data
    "pkg/vendor/x/y.go:3: note".data ⟨[], false, false⟩
    ⟨"pkg/vendor/x/y.go".data, "3".data, none, "note".data⟩
    (by decide) (by decide) (by decide) (Or.inr (by decide))
  exact h

/-! ## Claim C4: the synthetic unparsable-output diagnostic -/

/-- Claim C4 counterexample: strict reporting is requested
(`printUnexpectedOutput = true`) and no line of the output matches the
grammar, yet no synthetic diagnostic is produced, because the run exited
without an error (`err` falsy): the source only pushes the synthetic
record under `if (err)`, and only when `useStdErr` holds with a nonempty
`stderr` and an active editor exists. -/
theorem runTool_unparsable_cex :
    runTool true true (some "/a.go".data) "/w".data "error".data
        ⟨false, false, [], "oops".data⟩ = [] ∧
    runTool true true (some "/a.go".data) "/w".data "error".data
        ⟨false, false, [], "oops".data⟩ ≠
      [{ file := "/a.go".data, line := 1, col := some 1, msg := "oops".data,
         severity := "error".data }] := by
  refine ⟨by decide, by decide⟩

theorem foldl_unmatched_lines (cwd severity : List Char) :
    ∀ (ls : List (List Char)), (∀ l ∈ ls, matchDiagLine l = none) → ∀ u : Bool,
      ls.foldl (processLine true true true cwd severity) ⟨[], u, false⟩ =
        ⟨[], u || !ls.isEmpty, false⟩ := by
  intro ls
  induction ls with
  | nil => intro _ u; simp
  | cons l ls ih =>
    intro h u
    have hstep : processLine true true true cwd severity ⟨[], u, false⟩ l =
        ⟨[], true, false⟩ := by
      unfold processLine
      rw [h l (by simp)]
      simp
    simp only [List.foldl_cons, hstep]
    rw [ih (fun x hx => h x (by simp [hx])) true]
    simp

/-- Claim C4 (amended): when no line of the output matches the grammar and
the caller requested strict reporting, a single synthetic diagnostic at
line 1, column 1 of the active document carrying the whole raw output as
its message is returned exactly when, in addition, the run reads `stderr`
(`useStdErr`), `stderr` is nonempty, the process reported an error, and an
active editor exists. -/
theorem runTool_unparsable_synthetic (cwd severity activeFile stdout stderr : List Char)
    (hne : stderr ≠ [])
    (hnm : ∀ l ∈ splitNl stderr, matchDiagLine l = none) :
    runTool true true (some activeFile) cwd severity ⟨true, false, stdout, stderr⟩ =
      [{ file := activeFile, line := 1, col := some 1, msg := stderr,
         severity := "error".data }] := by
  have hs : stderr.isEmpty = false := by
    cases stderr with
    | nil => exact absurd rfl hne
    | cons a as => rfl
  have hnil : (splitNl stderr).isEmpty = false := by
    cases hh : splitNl stderr with
    | nil => exact absurd hh (splitNl_ne_nil stderr)
    | cons a as => rfl
  have hfold := foldl_unmatched_lines cwd severity (splitNl stderr) hnm false
  unfold runTool
  simp only [hs, Bool.not_false, Bool.not_true, Bool.and_true, Bool.true_and,
    Bool.and_false, Bool.false_and, if_true, ite_true, ite_false]
  rw [hfold]
  simp [hnil]

/-- Witness for `runTool_unparsable_synthetic`. -/
theorem runTool_unparsable_synthetic_witness :
    runTool true true (some "/a.go".data) "/w".data "error".data
        ⟨true, false, [], "oops\nbad".data⟩ =
      [{ file := "/a.go".data, line := 1, col := some 1, msg := "oops\nbad".data,
         severity := "error".data }] :=
  runTool_unparsable_synthetic "/w".data "error".data "/a.go".data [] "oops\nbad".data
    (by decide) (by decide)

/-! ## Claim C1: build-wins merging -/

/-- Claim C1: publishing a new Build set for file `f` rewrites the stored
Lint and Vet diagnostics of `f` to exactly those whose line collides with
no new Build diagnostic (colliding ones removed, all others kept in
order); publishing a new Lint (or Vet) set for `f` stores exactly the
incoming diagnostics whose line collides with no stored Build diagnostic
of `f`, and leaves the Build collection completely unchanged. -/
theorem handleDiagnosticErrors_merge (st : DiagStores) (f : List Char) (new : List VDiag) :
    ((handleDiagnosticErrors .build [(f, new)] st).lint f =
        (st.lint f).map
          (fun ds => ds.filter (fun d => !(new.map (fun b => b.line)).contains d.line)) ∧
      (handleDiagnosticErrors .build [(f, new)] st).vet f =
        (st.vet f).map
          (fun ds => ds.filter (fun d => !(new.map (fun b => b.line)).contains d.line))) ∧
    ((handleDiagnosticErrors .lint [(f, new)] st).lint f =
        some (new.filter
          (fun d => !(((st.build f).getD []).map (fun b => b.line)).contains d.line)) ∧
      ∀ g, (handleDiagnosticErrors .lint [(f, new)] st).build g = st.build g) ∧
    ((handleDiagnosticErrors .vet [(f, new)] st).vet f =
        some (new.filter
          (fun d => !(((st.build f).getD []).map (fun b => b.line)).contains d.line)) ∧
      ∀ g, (handleDiagnosticErrors .vet [(f, new)] st).build g = st.build g) := by
  refine ⟨⟨?_, ?_⟩, ⟨?_, ?_⟩, ⟨?_, ?_⟩⟩ <;>
    simp only [handleDiagnosticErrors, List.foldl_cons, List.foldl_nil,
      publishFileDiagnostics, DiagStores.clear, DiagStores.set, deDupeDiagnostics] <;>
    cases hl : st.lint f <;> cases hv : st.vet f <;> cases hb : st.build f <;>
    simp [hl, hv, hb, List.filter_true]

/-! ## Claim C6: what publishing replaces -/

/-- Claim C6 counterexample: publishing a Build set that mentions only
`b.go` erases the previously stored Build diagnostics of the unmentioned
file `a.go` (the source clears the whole incoming collection first), so
same-category entries of unmentioned files do not remain unchanged. -/
theorem handleDiagnosticErrors_frame_cex :
    (handleDiagnosticErrors .build [("b.go".data, [⟨2, "y".data⟩])]
          { build := fun g => if g = "a.go".data then some [⟨1, "x".data⟩] else none,
            lint := fun _ => none, vet := fun _ => none }).build "a.go".data = none ∧
    (handleDiagnosticErrors .build [("b.go".data, [⟨2, "y".data⟩])]
          { build := fun g => if g = "a.go".data then some [⟨1, "x".data⟩] else none,
            lint := fun _ => none, vet := fun _ => none }).build "a.go".data ≠
      some [⟨1, "x".data⟩] := by
  refine ⟨by decide, by decide⟩

theorem publishFileDiagnostics_preserves (cat cat' : DiagCategory) (file g : List Char)
    (nd : List VDiag) (st : DiagStores) (hg : file ≠ g) :
    ((publishFileDiagnostics cat file nd st).get cat') g = (st.get cat') g := by
  have hgf : (g = file) = False := by
    simp only [eq_iff_iff, iff_false]
    intro h
    exact hg h.symm
  cases cat <;> cases cat' <;>
    simp only [publishFileDiagnostics] <;>
    cases hl : st.lint file <;> cases hv : st.vet file <;> cases hb : st.build file <;>
    simp [DiagStores.set, DiagStores.get, hgf, hl, hv, hb]

theorem handleDiagnosticErrors_foldl_preserves (cat cat' : DiagCategory) (g : List Char)
    (m : List (List Char × List VDiag)) (st : DiagStores) (hg : ∀ e ∈ m, e.1 ≠ g) :
    ((m.foldl (fun acc e => publishFileDiagnostics cat e.1 e.2 acc) st).get cat') g =
      (st.get cat') g := by
  induction m generalizing st with
  | nil => rfl
  | cons e m ih =>
    simp only [List.foldl_cons]
    rw [ih _ (fun x hx => hg x (by simp [hx]))]
    exact publishFileDiagnostics_preserves cat cat' e.1 g e.2 st (hg e (by simp))

/-- Claim C6 (amended): publishing a new diagnostic set for one category
first clears that whole category, so after publishing, that category holds
no diagnostics for any file absent from the new set, while the other two
categories' entries for files absent from the new set remain unchanged. -/
theorem handleDiagnosticErrors_frame (cat : DiagCategory) (m : List (List Char × List VDiag))
    (st : DiagStores) (g : List Char) (hg : ∀ e ∈ m, e.1 ≠ g) :
    ((handleDiagnosticErrors cat m st).get cat) g = none ∧
    ∀ cat', cat' ≠ cat →
      ((handleDiagnosticErrors cat m st).get cat') g = (st.get cat') g := by
  constructor
  · rw [handleDiagnosticErrors, handleDiagnosticErrors_foldl_preserves cat cat g m _ hg]
    cases cat <;> rfl
  · intro cat' hne
    rw [handleDiagnosticErrors, handleDiagnosticErrors_foldl_preserves cat cat' g m _ hg]
    cases cat <;> cases cat' <;> first | exact absurd rfl hne | rfl

/-- Witness for `handleDiagnosticErrors_frame`. -/
theorem handleDiagnosticErrors_frame_witness :
    ((handleDiagnosticErrors .build [("b.go".data, [⟨2, "y".data⟩])]
          { build := fun g => if g = "a.go".data then some [⟨1, "x".data⟩] else none,
            lint := fun g => if g = "a.go".data then some [⟨3, "z".data⟩] else none,
            vet := fun _ => none }).get .build) "a.go".data = none ∧
    ((handleDiagnosticErrors .build [("b.go".data, [⟨2, "y".data⟩])]
          { build := fun g => if g = "a.go".data then some [⟨1, "x".data⟩] else none,
            lint := fun g => if g = "a.go".data then some [⟨3, "z".data⟩] else none,
            vet := fun _ => none }).get .lint) "a.go".data = some [⟨3, "z".data⟩] := by
  have h := handleDiagnosticErrors_frame .build [("b.go".data, [⟨2, "y".data⟩])]
    { build := fun g => if g = "a.go".data then some [⟨1, "x".data⟩] else none,
      lint := fun g => if g = "a.go".data then some [⟨3, "z".data⟩] else none,
      vet := fun _ => none } "a.go".data (by decide)
  exact ⟨h.1, (h.2 .lint (by decide)).trans (by decide)⟩

/-! ## Claim C10: LineBuffer -/

theorem extractLines_eq_splitNl (s : List Char) :
    extractLines s = ((splitNl s).dropLast, (splitNl s).getLastD []) := by
  induction s with
  | nil => rfl
  | cons c cs ih =>
    by_cases hc : c = '\n'
    · subst hc
      cases h : splitNl cs with
      | nil => exact absurd h (splitNl_ne_nil cs)
      | cons d ds =>
        simp [extractLines, splitNl, ih, h, List.getLastD_cons]
    · cases h : splitNl cs with
      | nil => exact absurd h (splitNl_ne_nil cs)
      | cons d ds =>
        cases ds with
        | nil => simp [extractLines, splitNl, ih, h, hc, List.getLastD_cons]
        | cons e es => simp [extractLines, splitNl, ih, h, hc, List.getLastD_cons]

theorem extractLines_append (s t : List Char) :
    extractLines (s ++ t) =
      ((extractLines s).1 ++ (extractLines ((extractLines s).2 ++ t)).1,
        (extractLines ((extractLines s).2 ++ t)).2) := by
  induction s with
  | nil => simp [extractLines]
  | cons c cs ih =>
    by_cases hc : c = '\n'
    · subst hc
      simp [extractLines, ih]
    · cases h : (extractLines cs).1 with
      | nil =>
        cases ha : (extractLines ((extractLines cs).2 ++ t)).1 with
        | nil => simp [extractLines, ih, h, hc, ha]
        | cons a as => simp [extractLines, ih, h, hc, ha]
      | cons l ls =>
        simp [extractLines, ih, h, hc]

theorem extractLines_no_newline (buf : List Char) (h : ∀ c ∈ buf, c ≠ '\n') :
    extractLines buf = ([], buf) := by
  induction buf with
  | nil => rfl
  | cons c cs ih =>
    have hc : c ≠ '\n' := h c (by simp)
    rw [extractLines, ih (fun x hx => h x (by simp [hx]))]
    simp [hc]

theorem extractLines_rest_no_newline (s : List Char) :
    ∀ c ∈ (extractLines s).2, c ≠ '\n' := by
  induction s with
  | nil => intro c hc; simp [extractLines] at hc
  | cons a as ih =>
    intro c hc
    by_cases ha : a = '\n'
    · subst ha
      simp only [extractLines, if_pos rfl] at hc
      exact ih c hc
    · simp only [extractLines, if_neg ha] at hc
      rcases h : (extractLines as).1 with _ | ⟨l, ls⟩
      · rw [h] at hc
        simp only [List.mem_cons] at hc
        rcases hc with rfl | hc
        · exact ha
        · exact ih c hc
      · rw [h] at hc
        exact ih c hc

/-- A fold of `lineBufferAppend` steps, fused: starting from a buffer that
holds no newline, the session fires the complete lines of the whole
concatenation and buffers its tail. -/
theorem lineBufferRun_foldl (chunks : List (List Char)) :
    ∀ (acc : List (List Char)) (buf : List Char), (∀ c ∈ buf, c ≠ '\n') →
      chunks.foldl
          (fun a chunk =>
            let r := lineBufferAppend a.2 chunk
            (a.1 ++ r.1, r.2))
          (acc, buf) =
        (acc ++ (extractLines (buf ++ chunks.flatten)).1,
          (extractLines (buf ++ chunks.flatten)).2) := by
  induction chunks with
  | nil =>
    intro acc buf hbuf
    rw [List.flatten_nil, List.append_nil, extractLines_no_newline buf hbuf]
    simp
  | cons chunk chunks ih =>
    intro acc buf hbuf
    rw [List.foldl_cons]
    show List.foldl _
        (acc ++ (extractLines (buf ++ chunk)).1, (extractLines (buf ++ chunk)).2) chunks = _
    rw [ih (acc ++ (extractLines (buf ++ chunk)).1) (extractLines (buf ++ chunk)).2
        (extractLines_rest_no_newline (buf ++ chunk))]
    have hassoc : buf ++ (chunk :: chunks).flatten = (buf ++ chunk) ++ chunks.flatten := by
      simp [List.flatten_cons]
    rw [hassoc, extractLines_append (buf ++ chunk) chunks.flatten]
    simp [List.append_assoc]

/-- Claim C10: a `LineBuffer` session of `append`s followed by `done` fires
as lines, in order, exactly the newline-terminated segments of the
concatenation of all chunks (terminators removed), and hands the done
listeners the text after the last newline — `null` when nothing remains. -/
theorem lineBufferRun_spec (chunks : List (List Char)) :
    lineBufferRun chunks =
      ((splitNl chunks.flatten).dropLast,
        if (splitNl chunks.flatten).getLastD [] = [] then none
        else some ((splitNl chunks.flatten).getLastD [])) := by
  unfold lineBufferRun
  rw [lineBufferRun_foldl chunks [] [] (by intro c hc; simp at hc)]
  simp only [List.nil_append, extractLines_eq_splitNl, lineBufferDone]
  cases h : (splitNl chunks.flatten).getLastD [] with
  | nil => simp [h]
  | cons a as => simp [h]

/-! ## Claim C5: converter monotonicity -/

theorem utf8Pos_le (t : List Char) : ∀ i j, i ≤ j → utf8Pos t i ≤ utf8Pos t j := by
  induction t with
  | nil =>
    intro i j _
    cases i <;> cases j <;> simp [utf8Pos]
  | cons c cs ih =>
    intro i j hij
    cases i with
    | zero => simp [utf8Pos]
    | succ i' =>
      cases j with
      | zero => omega
      | succ j' =>
        simp only [utf8Pos]
        exact Nat.add_le_add_left (ih i' j' (Nat.succ_le_succ_iff.mp hij)) _

theorem utf8Pos_lt (t : List Char) : ∀ i j, i < j → j ≤ t.length → utf8Pos t i < utf8Pos t j := by
  induction t with
  | nil =>
    intro i j hij hj
    simp at hj
    omega
  | cons c cs ih =>
    intro i j hij hj
    cases j with
    | zero => omega
    | succ j' =>
      cases i with
      | zero =>
        simp only [utf8Pos]
        have := c.utf8Size_pos
        omega
      | succ i' =>
        simp only [utf8Pos]
        have := ih i' j' (by omega) (by simpa using hj)
        omega

theorem utf16Pos_le (t : List Char) : ∀ i j, i ≤ j → utf16Pos t i ≤ utf16Pos t j := by
  induction t with
  | nil =>
    intro i j _
    cases i <;> cases j <;> simp [utf16Pos]
  | cons c cs ih =>
    intro i j hij
    cases i with
    | zero => simp [utf16Pos]
    | succ i' =>
      cases j with
      | zero => omega
      | succ j' =>
        simp only [utf16Pos]
        exact Nat.add_le_add_left (ih i' j' (Nat.succ_le_succ_iff.mp hij)) _

theorem utf8Pos_inj (t : List Char) (i j : Nat) (hi : i ≤ t.length) (hj : j ≤ t.length)
    (h : utf8Pos t i = utf8Pos t j) : i = j := by
  rcases Nat.lt_trichotomy i j with hlt | heq | hgt
  · exact absurd h (Nat.ne_of_lt (utf8Pos_lt t i j hlt hj))
  · exact heq
  · exact absurd h.symm (Nat.ne_of_lt (utf8Pos_lt t j i hgt hi))

theorem byteToIdx_utf8Pos (t : List Char) : ∀ i, i ≤ t.length → byteToIdx t (utf8Pos t i) = i := by
  induction t with
  | nil =>
    intro i hi
    simp only [List.length_nil, Nat.le_zero] at hi
    subst hi
    rfl
  | cons c cs ih =>
    intro i hi
    cases i with
    | zero =>
      have := c.utf8Size_pos
      simp only [utf8Pos, byteToIdx]
      rw [if_neg (by omega)]
    | succ i' =>
      simp only [utf8Pos, byteToIdx]
      rw [if_pos (Nat.le_add_right _ _), Nat.add_sub_cancel_left, ih i' (by simpa using hi)]

theorem byteToIdx_mono (t : List Char) : ∀ b1 b2, b1 ≤ b2 → byteToIdx t b1 ≤ byteToIdx t b2 := by
  induction t with
  | nil => intro b1 b2 _; simp [byteToIdx]
  | cons c cs ih =>
    intro b1 b2 hb
    simp only [byteToIdx]
    by_cases h1 : c.utf8Size ≤ b1
    · rw [if_pos h1, if_pos (by omega)]
      exact Nat.succ_le_succ (ih _ _ (by omega))
    · rw [if_neg h1]
      split <;> omega

theorem foldl_nearest_mem (q : Nat) :
    ∀ (l : List (Nat × Nat)) (init : Nat × Nat),
      l.foldl (fun best x => if natDist x.1 q < natDist best.1 q then x else best) init
        ∈ init :: l := by
  intro l
  induction l with
  | nil => intro init; simp
  | cons x xs ih =>
    intro init
    simp only [List.foldl_cons]
    have h := ih (if natDist x.1 q < natDist init.1 q then x else init)
    rcases List.mem_cons.mp h with h1 | h1
    · rw [h1]
      split
      · simp
      · simp
    · simp [h1]

theorem getNearest_mem (memo : List (Nat × Nat)) (q : Nat) (h : memo ≠ []) :
    getNearest memo q ∈ memo := by
  cases memo with
  | nil => exact absurd rfl h
  | cons s rest => exact foldl_nearest_mem q rest s

theorem memoQuery_correct (t : List Char) (memo : List (Nat × Nat)) (j : Nat)
    (hm : goodMemo t memo) (hne : memo ≠ []) (hj : j ≤ t.length) :
    (memoQuery t memo (utf8Pos t j)).1 = utf16Pos t j ∧
    goodMemo t (memoQuery t memo (utf8Pos t j)).2 ∧
    (memoQuery t memo (utf8Pos t j)).2 ≠ [] := by
  obtain ⟨i, hi, hk, hv⟩ := hm _ (getNearest_mem memo (utf8Pos t j) hne)
  unfold memoQuery
  by_cases h0 : utf8Pos t j = (getNearest memo (utf8Pos t j)).1
  · have hij : i = j := utf8Pos_inj t i j hi hj (by rw [← hk, ← h0])
    rw [if_pos h0, hv, hij]
    exact ⟨rfl, hm, hne⟩
  · rw [if_neg h0]
    by_cases h1 : (getNearest memo (utf8Pos t j)).1 < utf8Pos t j
    · have hij : i ≤ j := by
        by_contra hc
        have := utf8Pos_le t j i (by omega)
        rw [← hk] at this
        omega
      have hd : decodeLen t (getNearest memo (utf8Pos t j)).1 (utf8Pos t j) =
          utf16Pos t j - utf16Pos t i := by
        unfold decodeLen
        rw [hk, byteToIdx_utf8Pos t i hi, byteToIdx_utf8Pos t j hj]
      have h16 : utf16Pos t i ≤ utf16Pos t j := utf16Pos_le t i j hij
      rw [if_pos h1, hd, hv]
      have hval : utf16Pos t i + (utf16Pos t j - utf16Pos t i) = utf16Pos t j := by omega
      show utf16Pos t i + (utf16Pos t j - utf16Pos t i) = utf16Pos t j ∧
        goodMemo t ((utf8Pos t j, utf16Pos t i + (utf16Pos t j - utf16Pos t i)) :: memo) ∧
        (utf8Pos t j, utf16Pos t i + (utf16Pos t j - utf16Pos t i)) :: memo ≠ []
      rw [hval]
      refine ⟨rfl, ?_, by simp⟩
      intro p hp
      rcases List.mem_cons.mp hp with h2 | h2
      · exact ⟨j, hj, by rw [h2], by rw [h2]⟩
      · exact hm p h2
    · have hbn : utf8Pos t j < (getNearest memo (utf8Pos t j)).1 := by omega
      have hji : j ≤ i := by
        by_contra hc
        have := utf8Pos_le t i j (by omega)
        rw [← hk] at this
        omega
      have hd : decodeLen t (utf8Pos t j) (getNearest memo (utf8Pos t j)).1 =
          utf16Pos t i - utf16Pos t j := by
        unfold decodeLen
        rw [hk, byteToIdx_utf8Pos t i hi, byteToIdx_utf8Pos t j hj]
      have h16 : utf16Pos t j ≤ utf16Pos t i := utf16Pos_le t j i hji
      rw [if_neg h1, hd, hv]
      have hval : utf16Pos t i - (utf16Pos t i - utf16Pos t j) = utf16Pos t j := by omega
      show utf16Pos t i - (utf16Pos t i - utf16Pos t j) = utf16Pos t j ∧
        goodMemo t ((utf8Pos t j, utf16Pos t i - (utf16Pos t i - utf16Pos t j)) :: memo) ∧
        (utf8Pos t j, utf16Pos t i - (utf16Pos t i - utf16Pos t j)) :: memo ≠ []
      rw [hval]
      refine ⟨rfl, ?_, by simp⟩
      intro p hp
      rcases List.mem_cons.mp hp with h2 | h2
      · exact ⟨j, hj, by rw [h2], by rw [h2]⟩
      · exact hm p h2

theorem utf8Pos_zero (t : List Char) : utf8Pos t 0 = 0 := by
  cases t <;> rfl

theorem utf16Pos_zero (t : List Char) : utf16Pos t 0 = 0 := by
  cases t <;> rfl

theorem memoRun_correct (t : List Char) :
    ∀ (qs : List Nat) (memo : List (Nat × Nat)), goodMemo t memo → memo ≠ [] →
      (∀ q ∈ qs, ∃ j, j ≤ t.length ∧ q = utf8Pos t j) →
      (memoRun t qs memo).1 = qs.map (fun q => utf16Pos t (byteToIdx t q)) := by
  intro qs
  induction qs with
  | nil => intro memo _ _ _; rfl
  | cons q qs ih =>
    intro memo hm hne hq
    obtain ⟨j, hj, rfl⟩ := hq q (by simp)
    obtain ⟨hval, hgood, hne'⟩ := memoQuery_correct t memo j hm hne hj
    show ((memoQuery t memo (utf8Pos t j)).1 :: (memoRun t qs (memoQuery t memo (utf8Pos t j)).2).1)
        = _
    rw [hval, ih _ hgood hne' (fun x hx => hq x (by simp [hx])),
      List.map_cons, byteToIdx_utf8Pos t j hj]

theorem converterOutputs_eq (t : List Char) (qs : List Nat)
    (hb : ∀ q ∈ qs, ∃ j, j ≤ t.length ∧ q = utf8Pos t j) :
    converterOutputs t qs = qs.map (fun q => utf16Pos t (byteToIdx t q)) := by
  refine memoRun_correct t qs [(0, 0)] ?_ (by simp) hb
  intro p hp
  simp only [List.mem_singleton] at hp
  exact ⟨0, Nat.zero_le _, by rw [hp, utf8Pos_zero], by rw [hp, utf16Pos_zero]⟩

/-- Claim C5: against a fixed buffer that encodes the text `t` in UTF-8,
for any sequence of queries, each at a character-boundary byte offset, the
converter's answers are monotone in the byte offset: whatever the query
order and whatever samples were cached in between, a query at a smaller
byte offset answers a character offset no larger than a query at a greater
byte offset. -/
theorem charOffset_monotone (t : List Char) (qs : List Nat) (i1 i2 b1 b2 v1 v2 : Nat)
    (hb : ∀ q ∈ qs, ∃ j, j ≤ t.length ∧ q = utf8Pos t j)
    (hq1 : qs[i1]? = some b1) (hq2 : qs[i2]? = some b2)
    (hv1 : (converterOutputs t qs)[i1]? = some v1)
    (hv2 : (converterOutputs t qs)[i2]? = some v2)
    (hlt : b1 < b2) : v1 ≤ v2 := by
  rw [converterOutputs_eq t qs hb, List.getElem?_map, hq1, Option.map_some'] at hv1
  rw [converterOutputs_eq t qs hb, List.getElem?_map, hq2, Option.map_some'] at hv2
  obtain rfl : utf16Pos t (byteToIdx t b1) = v1 := Option.some.inj hv1
  obtain rfl : utf16Pos t (byteToIdx t b2) = v2 := Option.some.inj hv2
  exact utf16Pos_le t _ _ (byteToIdx_mono t b1 b2 (Nat.le_of_lt hlt))

/-- Witness for `charOffset_monotone` on the buffer encoding `aé€` (byte
boundaries 0, 1, 3, 6) with the out-of-order query sequence `[6, 0, 3]`. -/
theorem charOffset_monotone_witness :
    (converterOutputs "aé€".data [6, 0, 3])[1]? = some 0 ∧
    (converterOutputs "aé€".data [6, 0, 3])[0]? = some 3 ∧ (0 : Nat) ≤ 3 := by
  have hb : ∀ q ∈ [6, 0, 3], ∃ j, j ≤ "aé€".data.length ∧ q = utf8Pos "aé€".data j := by
    intro q hq
    simp only [List.mem_cons, List.not_mem_nil, or_false] at hq
    rcases hq with rfl | rfl | rfl
    · exact ⟨3, by decide, by decide⟩
    · exact ⟨0, by decide, by decide⟩
    · exact ⟨2, by decide, by decide⟩
  refine ⟨by decide, by decide, ?_⟩
  exact charOffset_monotone "aé€".data [6, 0, 3] 1 0 0 6 0 3 hb
    (by decide) (by decide) (by decide) (by decide) (by decide)

end VscodeGo
